import Mathlib

/-!
Shallow embedding of the audio-capture / transcription core of
`src/main.py` (classes `RedisAudioStream`, `STTWorker`, `VoiceBot`).

Modelling choices:
* Byte strings (`bytes` in the source) are `List Nat`.
* A Redis stream is a list of entries in append order.  Redis assigns each
  appended entry a strictly increasing id of the form `"ms-seq"`; the model
  uses `Nat` ids `1, 2, 3, …` with the distinguished beginning cursor
  `"0-0"` modelled as `0`.  The spec scenario id `"1-0"` corresponds to `1`.
* Field keys are strings (in the source they travel as UTF-8 bytes and the
  reader decodes them back with `k.decode()`; that round trip is the
  identity on the ASCII keys used here, so the model keeps them as
  strings).  Field values are raw bytes and are never transformed.
* The transcription capability is passed to the worker-loop step as an
  explicit function `Bytes → Except String String`, because the spec
  treats `transcribe` as an opaque, potentially failing external call;
  `Except.error` models the call raising an exception.  The capability the
  source ships is `STTWorker.liveTranscribe`, which never fails.
-/

/-- Raw byte sequence (`bytes` in the source). -/
abbrev Bytes := List Nat

/-- One entry of a Redis stream: a server-assigned id and a field map,
kept in insertion order as the source's Python dict preserves it. -/
structure StreamEntry where
  id : Nat
  fields : List (String × Bytes)
deriving DecidableEq, Repr

/-- `redis.xadd(stream, fields)`: appends one entry, auto-assigning the
next strictly increasing id (modelled as `length + 1`). -/
def xadd (s : List StreamEntry) (fields : List (String × Bytes)) :
    List StreamEntry :=
  s ++ [⟨s.length + 1, fields⟩]

/-- `redis.xread({stream: lastId}, count=1)`: the first entry whose id is
greater than the cursor, or `none` when no such entry exists (the block
window elapsing without data). -/
def xread (s : List StreamEntry) (lastId : Nat) : Option StreamEntry :=
  s.find? (fun e => lastId < e.id)

/-- `str(user_id).encode()`: the decimal string of the integer, as UTF-8
bytes (code points of its characters). -/
def encodeInt (n : Int) : Bytes :=
  (toString n).data.map Char.toNat

/-- `RedisAudioStream.write(user_id, pcm)`: appends one entry with exactly
the two fields `user_id` (decimal-encoded id) and `pcm` (raw bytes),
performing no validation of either argument. -/
def RedisAudioStream.write (s : List StreamEntry) (user_id : Int)
    (pcm : Bytes) : List StreamEntry :=
  xadd s [("user_id", encodeInt user_id), ("pcm", pcm)]

/-- `RedisAudioStream.read(last_id)`: wraps `xread`; returns the unchanged
cursor and `None` when nothing arrived, otherwise the entry's id as the new
cursor together with the entry's (key-decoded) field map. -/
def RedisAudioStream.read (s : List StreamEntry) (last_id : Nat) :
    Nat × Option (List (String × Bytes)) :=
  match xread s last_id with
  | none => (last_id, none)
  | some e => (e.id, some e.fields)

/-- `STTWorker.transcribe(pcm)`: the dummy transcription of the source,
`f"{len(pcm)}バイトの音声"`. -/
def STTWorker.transcribe (pcm : Bytes) : String :=
  toString pcm.length ++ "バイトの音声"

/-- The transcription capability the source actually installs: calling
`STTWorker.transcribe`, which always returns and never raises. -/
def STTWorker.liveTranscribe : Bytes → Except String String :=
  fun pcm => Except.ok (STTWorker.transcribe pcm)

/-- Observable outcome of one iteration of `STTWorker.run`'s `while True`
body. `slept ms` is `await asyncio.sleep(0.1)` (100 ms) followed by
`continue`; `printed uid text` is the `print(f"{user_id}: {text}")` of a
processed entry; `keyError k` is the uncaught `KeyError` raised by
`data[k]` on a missing field, escaping the loop; `raised msg` is an
exception propagating out of the transcription call, escaping the loop. -/
inductive StepOutcome where
  | slept (ms : Nat)
  | printed (user_id : Bytes) (text : String)
  | keyError (key : String)
  | raised (msg : String)
deriving DecidableEq, Repr

/-- One iteration of `STTWorker.run`: read with the current cursor, sleep
100 ms when nothing arrived, otherwise look up `data["pcm"]` then
`data["user_id"]` (a missing key raises `KeyError`; the loop has no
handler), call the transcription capability `tr` (an error propagates;
the loop has no handler), and print the result.  Returns the worker's
cursor after the iteration together with the outcome. -/
def STTWorker.runStep (tr : Bytes → Except String String)
    (s : List StreamEntry) (last_id : Nat) : Nat × StepOutcome :=
  match RedisAudioStream.read s last_id with
  | (next_id, none) => (next_id, .slept 100)
  | (next_id, some data) =>
    match data.lookup "pcm" with
    | none => (next_id, .keyError "pcm")
    | some pcm =>
      match data.lookup "user_id" with
      | none => (next_id, .keyError "user_id")
      | some uid =>
        match tr pcm with
        | .error msg => (next_id, .raised msg)
        | .ok text => (next_id, .printed uid text)

/-- The sequence of entries a consumer obtains by calling
`RedisAudioStream.read` `n` times, threading the returned cursor, as
`STTWorker.run` does; each delivered entry is recorded as
`(id, fields)`. -/
def readTrace (s : List StreamEntry) (cursor : Nat) :
    Nat → List (Nat × List (String × Bytes))
  | 0 => []
  | n + 1 =>
    match RedisAudioStream.read s cursor with
    | (c2, none) => readTrace s c2 n
    | (c2, some data) => (c2, data) :: readTrace s c2 n

/-- The stream produced by a sequence of `RedisAudioStream.write` calls
(speaker id, pcm) starting from the empty stream. -/
def buildStream (chunks : List (Int × Bytes)) : List StreamEntry :=
  chunks.foldl (fun st c => RedisAudioStream.write st c.1 c.2) []

/-- `VoiceBot._after_recording(sink)`: for each `(user, audio)` item of
`sink.audio_data` (a speaker's id and the list of that speaker's buffered
frames, in receipt order), joins the frames' PCM with `b"".join` and
issues one `RedisAudioStream.write` of the result. -/
def VoiceBot.afterRecording (s : List StreamEntry)
    (audio_data : List (Int × List Bytes)) : List StreamEntry :=
  audio_data.foldl (fun st p => RedisAudioStream.write st p.1 p.2.flatten) s

/-- Modelled from the spec (§4.2 `onSessionEnd`): the entries the
consolidated end-of-session path is specified to append — one per listed
speaker, ids continuing from `base`, each holding that speaker's
concatenated PCM.  Used to compare `VoiceBot.afterRecording` against the
spec's words. -/
def specConsolidated (base : Nat) :
    List (Int × List Bytes) → List StreamEntry
  | [] => []
  | (u, frames) :: rest =>
    ⟨base + 1, [("user_id", encodeInt u), ("pcm", frames.flatten)]⟩ ::
      specConsolidated (base + 1) rest

/-- The ids of `s` are exactly `base + 1, base + 2, …` in order: the shape
every stream reachable by `xadd`s from empty has (with `base = 0`). -/
def idsFrom : Nat → List StreamEntry → Prop
  | _, [] => True
  | base, e :: rest => e.id = base + 1 ∧ idsFrom (base + 1) rest

theorem idsFrom_xadd (f : List (String × Bytes)) (s : List StreamEntry) :
    ∀ base : Nat, idsFrom base s →
      idsFrom base (s ++ [⟨base + s.length + 1, f⟩]) := by
  induction s with
  | nil => intro base _; simp [idsFrom]
  | cons e rest ih =>
    intro base h
    obtain ⟨he, hrest⟩ := h
    have hid : base + (e :: rest).length + 1 = base + 1 + rest.length + 1 := by
      simp [List.length_cons]; omega
    rw [List.cons_append, hid]
    exact ⟨he, ih (base + 1) hrest⟩

theorem buildStream_idsFrom (chunks : List (Int × Bytes)) :
    idsFrom 0 (buildStream chunks) := by
  suffices h : ∀ s, idsFrom 0 s →
      idsFrom 0 (chunks.foldl (fun st c => RedisAudioStream.write st c.1 c.2) s) by
    exact h [] trivial
  induction chunks with
  | nil => intro s hs; exact hs
  | cons c rest ih =>
    intro s hs
    refine ih _ ?_
    have := idsFrom_xadd [("user_id", encodeInt c.1), ("pcm", c.2)] s 0 hs
    simpa [RedisAudioStream.write, xadd] using this

theorem xread_eq_get? (s : List StreamEntry) :
    ∀ base k : Nat, base ≤ k → idsFrom base s →
      xread s k = s.get? (k - base) := by
  induction s with
  | nil => intro base k _ _; simp [xread]
  | cons e rest ih =>
    intro base k hbk h
    obtain ⟨he, hrest⟩ := h
    rcases Nat.lt_or_ge k (base + 1) with hk | hk
    · have hkb : k = base := by omega
      subst hkb
      have hpos : (decide (k < e.id)) = true := by simp [he]
      simp only [xread, Nat.sub_self, List.find?]
      simp only [hpos]
      rfl
    · have hneg : ¬ ((decide (k < e.id)) = true) := by simp [he]; omega
      have h1 : xread (e :: rest) k = xread rest k := by
        simp only [xread]
        exact List.find?_cons_of_neg _ hneg
      have h2 := ih (base + 1) k hk hrest
      have h3 : k - base = (k - (base + 1)) + 1 := by omega
      rw [h1, h2, h3]
      rfl

theorem idsFrom_get? (s : List StreamEntry) :
    ∀ (base k : Nat) (e : StreamEntry), idsFrom base s → s.get? k = some e →
      e.id = base + k + 1 := by
  induction s with
  | nil => intro base k e _ h; simp at h
  | cons a rest ih =>
    intro base k e h hget
    obtain ⟨ha, hrest⟩ := h
    cases k with
    | zero =>
      simp at hget
      subst hget
      omega
    | succ n =>
      have := ih (base + 1) n e hrest (by simpa using hget)
      omega

theorem drop_eq_cons_of_get? (s : List StreamEntry) :
    ∀ (k : Nat) (e : StreamEntry), s.get? k = some e →
      s.drop k = e :: s.drop (k + 1) := by
  induction s with
  | nil => intro k e h; simp at h
  | cons a rest ih =>
    intro k e h
    cases k with
    | zero =>
      simp at h
      subst h
      rfl
    | succ n =>
      simpa using ih n e (by simpa using h)

theorem readTrace_eq (s : List StreamEntry) (hs : idsFrom 0 s) :
    ∀ n k : Nat, readTrace s k n
      = ((s.drop k).take n).map (fun e => (e.id, e.fields)) := by
  intro n
  induction n with
  | zero => intro k; simp [readTrace]
  | succ m ih =>
    intro k
    have hx : xread s k = s.get? k := by
      simpa using xread_eq_get? s 0 k (Nat.zero_le k) hs
    cases hget : s.get? k with
    | none =>
      have hlen : s.length ≤ k := List.get?_eq_none.mp hget
      have hdrop : s.drop k = [] := List.drop_eq_nil_of_le hlen
      have hread : RedisAudioStream.read s k = (k, none) := by
        simp only [RedisAudioStream.read, hx, hget]
      simp only [readTrace, hread]
      rw [ih k, hdrop]
      simp
    | some e =>
      have hid : e.id = k + 1 := by
        simpa using idsFrom_get? s 0 k e hs hget
      have hdrop := drop_eq_cons_of_get? s k e hget
      have hread : RedisAudioStream.read s k = (e.id, some e.fields) := by
        simp only [RedisAudioStream.read, hx, hget]
      simp only [readTrace, hread]
      rw [ih e.id, hid, hdrop]
      simp [hid]

theorem foldl_write_length (chunks : List (Int × Bytes)) :
    ∀ s : List StreamEntry,
      (chunks.foldl (fun st c => RedisAudioStream.write st c.1 c.2) s).length
        = s.length + chunks.length := by
  induction chunks with
  | nil => intro s; simp
  | cons c rest ih =>
    intro s
    simp only [List.foldl_cons]
    rw [ih]
    simp [RedisAudioStream.write, xadd]
    omega

theorem buildStream_length (chunks : List (Int × Bytes)) :
    (buildStream chunks).length = chunks.length := by
  simpa using foldl_write_length chunks []

theorem idsFrom_mem_lt (s : List StreamEntry) :
    ∀ (base : Nat) (e : StreamEntry), idsFrom base s → e ∈ s → base < e.id := by
  induction s with
  | nil => intro _ e _ h; simp at h
  | cons a rest ih =>
    intro base e h hm
    obtain ⟨ha, hrest⟩ := h
    rcases List.mem_cons.mp hm with rfl | hm
    · omega
    · have := ih (base + 1) e hrest hm
      omega

theorem idsFrom_pairwise (s : List StreamEntry) :
    ∀ base : Nat, idsFrom base s → s.Pairwise (fun a b => a.id < b.id) := by
  induction s with
  | nil => intro _ _; simp
  | cons a rest ih =>
    intro base h
    obtain ⟨ha, hrest⟩ := h
    refine List.Pairwise.cons ?_ (ih (base + 1) hrest)
    intro b hb
    have := idsFrom_mem_lt rest (base + 1) b hrest hb
    omega

/-- C1: appending N chunks via `RedisAudioStream.write` and then repeatedly
calling `RedisAudioStream.read` from the beginning cursor 0 (`"0-0"`)
delivers exactly the N entries, in append order, each exactly once as the
cursor advances, with ids strictly increasing. -/
theorem C1_read_returns_appends_in_order (chunks : List (Int × Bytes)) :
    readTrace (buildStream chunks) 0 chunks.length
        = (buildStream chunks).map (fun e => (e.id, e.fields)) ∧
      ((buildStream chunks).map (fun e => e.id)).Pairwise (· < ·) ∧
      (buildStream chunks).length = chunks.length := by
  have hs := buildStream_idsFrom chunks
  have hlen := buildStream_length chunks
  refine ⟨?_, ?_, hlen⟩
  · have h := readTrace_eq (buildStream chunks) hs chunks.length 0
    rw [h, List.drop_zero, ← hlen, List.take_length]
  · rw [List.pairwise_map]
    exact idsFrom_pairwise _ 0 hs

theorem get?_append_length (s : List StreamEntry) (x : StreamEntry) :
    (s ++ [x]).get? s.length = some x := by
  induction s with
  | nil => rfl
  | cons a rest ih => exact ih

/-- C2 counterexample: the entry appended for the spec scenario
(speaker 42, 320 zero bytes) carries the field keys `user_id` and `pcm`;
it has no `speaker_id` field, so the claim's field name is wrong. -/
theorem C2_counterexample :
    ((RedisAudioStream.write [] 42 (List.replicate 320 0)).map
        (fun e => e.fields.map Prod.fst)) = [["user_id", "pcm"]] ∧
      ((RedisAudioStream.write [] 42 (List.replicate 320 0)).map
        (fun e => e.fields.lookup "speaker_id")) = [none] := by
  constructor <;> rfl

set_option maxRecDepth 4096 in
/-- C2 (amended): every entry appended by `RedisAudioStream.write` carries
exactly the two fields `user_id` (the speaker's integer id as a decimal
string in bytes) and `pcm` (raw bytes), and the consumer extracts exactly
those names; the scenario of appending speaker 42 with 320 zero bytes and
reading from the beginning returns the entry with those fields, and the
worker processes it by extracting `user_id` and `pcm`. -/
theorem C2_amended_fields_are_user_id_pcm (s : List StreamEntry)
    (uid : Int) (pcm : Bytes) :
    (RedisAudioStream.write s uid pcm).drop s.length
        = [⟨s.length + 1, [("user_id", encodeInt uid), ("pcm", pcm)]⟩] ∧
      RedisAudioStream.read (RedisAudioStream.write [] 42 (List.replicate 320 0)) 0
        = (1, some [("user_id", encodeInt 42), ("pcm", List.replicate 320 0)]) ∧
      STTWorker.runStep STTWorker.liveTranscribe
          (RedisAudioStream.write [] 42 (List.replicate 320 0)) 0
        = (1, StepOutcome.printed (encodeInt 42) "320バイトの音声") := by
  refine ⟨?_, rfl, rfl⟩
  show (s ++ _).drop s.length = _
  exact List.drop_left s _

/-- C3 counterexample: a consumed entry missing the `pcm` field makes the
worker iteration end in an uncaught `KeyError "pcm"` that escapes the
loop; the code performs no `MalformedEntryError` classification, no
logging, and does not continue with the next iteration. -/
theorem C3_counterexample :
    STTWorker.runStep STTWorker.liveTranscribe
        (xadd [] [("user_id", encodeInt 7)]) 0
      = (1, StepOutcome.keyError "pcm") := by
  rfl

/-- C3 (amended): for an entry missing `pcm` (or missing `user_id`), the
subscript `data["pcm"]` / `data["user_id"]` raises `KeyError`, which the
loop does not catch, so the fault escapes the loop; the cursor has already
been advanced to the entry's id, and the transcription capability is not
invoked (the outcome is the same for every capability `tr`). -/
theorem C3_amended_missing_field_raises_keyerror
    (tr : Bytes → Except String String) (s : List StreamEntry) (k : Nat)
    (e : StreamEntry) (hread : xread s k = some e) :
    (e.fields.lookup "pcm" = none →
        STTWorker.runStep tr s k = (e.id, StepOutcome.keyError "pcm")) ∧
      (∀ pcm, e.fields.lookup "pcm" = some pcm →
        e.fields.lookup "user_id" = none →
        STTWorker.runStep tr s k = (e.id, StepOutcome.keyError "user_id")) := by
  constructor
  · intro hpcm
    simp only [STTWorker.runStep, RedisAudioStream.read, hread, hpcm]
  · intro pcm hpcm huid
    simp only [STTWorker.runStep, RedisAudioStream.read, hread, hpcm, huid]

theorem C3_witness :
    STTWorker.runStep STTWorker.liveTranscribe
        (xadd (xadd [] [("user_id", encodeInt 7)]) [("pcm", [1, 2])]) 1
      = (2, StepOutcome.keyError "user_id") :=
  (C3_amended_missing_field_raises_keyerror STTWorker.liveTranscribe
      (xadd (xadd [] [("user_id", encodeInt 7)]) [("pcm", [1, 2])]) 1
      ⟨2, [("pcm", [1, 2])]⟩ rfl).2 [1, 2] rfl rfl

/-- C4 counterexample: with a transcription capability that raises
(modelled `Except.error "timeout"`) on the single well-formed entry of the
stream, the worker iteration ends with the exception propagating out of
the loop (`raised "timeout"`); no `TranscriptionFailure` classification,
logging, or continuation happens. -/
theorem C4_counterexample :
    STTWorker.runStep (fun _ => Except.error "timeout")
        (RedisAudioStream.write [] 7 [1, 2, 3]) 0
      = (1, StepOutcome.raised "timeout") := by
  rfl

/-- C4 (amended): the run loop has no handler around the transcription
call: whenever the capability raises, the exception escapes the loop with
the cursor already advanced to the failed entry's id (so the entry is not
retried), and nothing is classified or logged.  (The capability the source
ships, `STTWorker.liveTranscribe`, never raises — see C9 — so this path is
unreachable with the shipped `transcribe`.) -/
theorem C4_amended_transcription_error_escapes
    (tr : Bytes → Except String String) (s : List StreamEntry) (k : Nat)
    (e : StreamEntry) (pcm uid : Bytes) (msg : String)
    (hread : xread s k = some e)
    (hpcm : e.fields.lookup "pcm" = some pcm)
    (huid : e.fields.lookup "user_id" = some uid)
    (hfail : tr pcm = Except.error msg) :
    STTWorker.runStep tr s k = (e.id, StepOutcome.raised msg) := by
  simp only [STTWorker.runStep, RedisAudioStream.read, hread, hpcm, huid, hfail]

theorem C4_witness :
    STTWorker.runStep (fun _ => Except.error "boom")
        (RedisAudioStream.write [] 9 [5]) 0
      = (1, StepOutcome.raised "boom") :=
  C4_amended_transcription_error_escapes (fun _ => Except.error "boom")
    (RedisAudioStream.write [] 9 [5]) 0
    ⟨1, [("user_id", encodeInt 9), ("pcm", [5])]⟩ [5] (encodeInt 9) "boom"
    rfl rfl rfl rfl

theorem afterRecording_eq (audio_data : List (Int × List Bytes)) :
    ∀ s : List StreamEntry,
      VoiceBot.afterRecording s audio_data
        = s ++ specConsolidated s.length audio_data := by
  induction audio_data with
  | nil => intro s; simp [VoiceBot.afterRecording, specConsolidated]
  | cons p rest ih =>
    intro s
    obtain ⟨u, frames⟩ := p
    show VoiceBot.afterRecording (RedisAudioStream.write s u frames.flatten) rest = _
    rw [ih (RedisAudioStream.write s u frames.flatten)]
    simp [RedisAudioStream.write, xadd, specConsolidated, List.append_assoc]

theorem specConsolidated_length (audio_data : List (Int × List Bytes)) :
    ∀ base : Nat, (specConsolidated base audio_data).length = audio_data.length := by
  induction audio_data with
  | nil => intro base; rfl
  | cons p rest ih =>
    intro base
    obtain ⟨u, frames⟩ := p
    simp [specConsolidated, ih]

/-- C5: at session end, `_after_recording` issues exactly one additional
append per speaker listed in `sink.audio_data`, and each consolidated
entry's pcm is the byte concatenation, in receipt order, of that speaker's
buffered frames (`specConsolidated` spells out exactly these entries). -/
theorem C5_after_recording_one_append_per_speaker (s : List StreamEntry)
    (audio_data : List (Int × List Bytes)) :
    VoiceBot.afterRecording s audio_data
        = s ++ specConsolidated s.length audio_data ∧
      (VoiceBot.afterRecording s audio_data).length
        = s.length + audio_data.length := by
  refine ⟨afterRecording_eq audio_data s, ?_⟩
  rw [afterRecording_eq audio_data s]
  simp [specConsolidated_length]

/-- C6 counterexample: the consolidated end-of-session append for speaker
42 with one buffered frame produces a stream literally identical to a live
`RedisAudioStream.write` of the same bytes — same two fields, no
session-summary marker of any kind — so no inspection of the entry's
fields can distinguish the consolidated entry from a live one. -/
theorem C6_counterexample :
    VoiceBot.afterRecording [] [(42, [[1, 2]])]
      = RedisAudioStream.write [] 42 [1, 2] := by
  rfl

/-- C6 (amended): `_after_recording` tags nothing: each consolidated
append is exactly a `RedisAudioStream.write` of the speaker's concatenated
frames, so the consolidated entry carries the same two fields `user_id`
and `pcm` as every live entry and is indistinguishable from a live entry
by its fields. -/
theorem C6_amended_consolidated_entries_unmarked (s : List StreamEntry)
    (u : Int) (frames : List Bytes) :
    VoiceBot.afterRecording s [(u, frames)]
        = RedisAudioStream.write s u frames.flatten ∧
      (VoiceBot.afterRecording s [(u, frames)]).drop s.length
        = [⟨s.length + 1, [("user_id", encodeInt u), ("pcm", frames.flatten)]⟩] := by
  refine ⟨rfl, ?_⟩
  show (s ++ _).drop s.length = _
  exact List.drop_left s _

/-- C7: when `RedisAudioStream.read` returns no entry, the worker
iteration sleeps the fixed 100 ms backoff (`asyncio.sleep(0.1)`) and ends
with the cursor `last_id` unchanged; the outcome is the same for every
transcription capability `tr`, so no transcription is attempted and the
cursor is the only worker state, left untouched. -/
theorem C7_empty_read_backoff_cursor_unchanged
    (tr : Bytes → Except String String) (s : List StreamEntry) (k : Nat)
    (h : xread s k = none) :
    STTWorker.runStep tr s k = (k, StepOutcome.slept 100) := by
  simp only [STTWorker.runStep, RedisAudioStream.read, h]

theorem C7_witness :
    STTWorker.runStep STTWorker.liveTranscribe [] 0
      = (0, StepOutcome.slept 100) :=
  C7_empty_read_backoff_cursor_unchanged STTWorker.liveTranscribe [] 0 rfl

/-- C8: round trip — for every prior append history and every byte
sequence `pcm` (the empty and all-zero cases included, since `pcm` is
arbitrary), appending via `write` and reading that entry back yields a
`pcm` field byte-for-byte equal to what was written, with no
transformation applied to the value. -/
theorem C8_pcm_roundtrip (chunks : List (Int × Bytes)) (uid : Int)
    (pcm : Bytes) :
    RedisAudioStream.read (RedisAudioStream.write (buildStream chunks) uid pcm)
        (buildStream chunks).length
      = ((buildStream chunks).length + 1,
          some [("user_id", encodeInt uid), ("pcm", pcm)]) ∧
      ([("user_id", encodeInt uid), ("pcm", pcm)] :
          List (String × Bytes)).lookup "pcm" = some pcm := by
  refine ⟨?_, rfl⟩
  have hids : idsFrom 0 (buildStream chunks ++
      [⟨(buildStream chunks).length + 1,
        [("user_id", encodeInt uid), ("pcm", pcm)]⟩]) := by
    simpa using idsFrom_xadd [("user_id", encodeInt uid), ("pcm", pcm)]
      (buildStream chunks) 0 (buildStream_idsFrom chunks)
  have hx := xread_eq_get? (buildStream chunks ++
      [⟨(buildStream chunks).length + 1,
        [("user_id", encodeInt uid), ("pcm", pcm)]⟩])
      0 (buildStream chunks).length (Nat.zero_le _) hids
  rw [Nat.sub_zero] at hx
  have hget := get?_append_length (buildStream chunks)
    ⟨(buildStream chunks).length + 1,
      [("user_id", encodeInt uid), ("pcm", pcm)]⟩
  simp only [RedisAudioStream.write, xadd, RedisAudioStream.read, hx, hget]

/-- C9: the shipped `STTWorker.transcribe` is total — modelled by
`liveTranscribe` always returning `Except.ok` — and returns exactly
`f"{len(pcm)}バイトの音声"`, so its output depends only on the byte length
of the input: any two inputs of equal length transcribe identically,
regardless of content. -/
theorem C9_transcribe_depends_only_on_length (p q : Bytes)
    (h : p.length = q.length) :
    STTWorker.transcribe p = toString p.length ++ "バイトの音声" ∧
      STTWorker.liveTranscribe p = Except.ok (STTWorker.transcribe p) ∧
      STTWorker.transcribe p = STTWorker.transcribe q := by
  refine ⟨rfl, rfl, ?_⟩
  simp [STTWorker.transcribe, h]

theorem C9_witness :
    (([0] : Bytes)).length = (([255] : Bytes)).length ∧
      (STTWorker.transcribe [0]
          = toString (([0] : Bytes)).length ++ "バイトの音声" ∧
        STTWorker.liveTranscribe [0] = Except.ok (STTWorker.transcribe [0]) ∧
        STTWorker.transcribe [0] = STTWorker.transcribe [255]) :=
  ⟨rfl, C9_transcribe_depends_only_on_length [0] [255] rfl⟩

/-- C10: `RedisAudioStream.write` validates nothing: for every integer
`user_id` (negative included) and every byte sequence `pcm` (the empty
sequence, which violates the spec's non-empty AudioChunk invariant,
included), it appends exactly one entry whose `user_id` field is the
decimal-string encoding of `user_id` and whose `pcm` field is the given
bytes unchanged; `encodeInt` is grounded on concrete values ("42" is the
bytes `[52, 50]`, "-7" is `[45, 55]`). -/
theorem C10_write_accepts_everything (s : List StreamEntry) (user_id : Int)
    (pcm : Bytes) :
    RedisAudioStream.write s user_id pcm
        = s ++ [⟨s.length + 1,
            [("user_id", encodeInt user_id), ("pcm", pcm)]⟩] ∧
      (RedisAudioStream.write s user_id []).length = s.length + 1 ∧
      encodeInt 42 = [52, 50] ∧ encodeInt (-7) = [45, 55] := by
  refine ⟨rfl, ?_, by decide, by decide⟩
  simp [RedisAudioStream.write, xadd]
